import Mathlib

/-!
Verification of the line-cursor Markdown block parser in
`src/pipeline/tools/parser.py` (class `Parser`), shallowly embedded in Lean.

The embedding mirrors the Python source line by line: the parser state is the
pair (current line index, remaining lines); `peek` is `headD ""`, `next_line`
pops one line; each block handler is one Lean function.  The recursive nested
parses inside admonitions and tab blocks are modelled with an explicit fuel
argument, since the Python `parse` genuinely fails to terminate on some
inputs (see the claims about termination below); `none` means the fuel ran
out, and every divergence theorem quantifies over all fuel values.
-/

/-- Python `\s` on ASCII (lines produced by `splitlines` contain no newline,
but the characters are kept for faithfulness). -/
def isWS (ch : Char) : Bool :=
  ch == ' ' || ch == '\t' || ch == '\x0b' || ch == '\x0c' || ch == '\r' || ch == '\n'

/-- Python `str.lstrip()`. -/
def pyLstrip (s : String) : String := ⟨s.data.dropWhile isWS⟩

/-- Python `str.rstrip()`. -/
def pyRstrip (s : String) : String := ⟨(s.data.reverse.dropWhile isWS).reverse⟩

/-- Python `str.strip()`. -/
def pyStrip (s : String) : String := pyRstrip (pyLstrip s)

/-- Python `str.strip('"')`: remove leading and trailing double quotes. -/
def stripQuotes (s : String) : String :=
  ⟨((s.data.dropWhile (· == '"')).reverse.dropWhile (· == '"')).reverse⟩

/-- Python `str.startswith(pre)`. -/
def pyStartsWith (s pre : String) : Bool := pre.data.isPrefixOf s.data

/-- Python `str.split(None, 1)`: split on the first whitespace run, no empty
pieces at either end. -/
def splitWs1 (s : String) : List String :=
  let rest := s.data.dropWhile isWS
  match rest with
  | [] => []
  | _ =>
    let tok := rest.takeWhile (fun ch => !(isWS ch))
    let after := (rest.drop tok.length).dropWhile isWS
    match after with
    | [] => [⟨tok⟩]
    | _ => [⟨tok⟩, ⟨after⟩]

/-- Segments of a character list split at every newline. -/
def splitSegs : List Char → List Char → List String
  | [], acc => [⟨acc.reverse⟩]
  | '\n' :: rest, acc => ⟨acc.reverse⟩ :: splitSegs rest []
  | ch :: rest, acc => splitSegs rest (ch :: acc)

/-- Python `str.splitlines()` for strings whose only line break is `'\n'`
(the inputs of this development): the final segment is dropped when the
string ends in a newline, and the empty string yields no lines. -/
def splitlinesNl (s : String) : List String :=
  match s.data with
  | [] => []
  | cs => splitSegs (if cs.getLast? = some '\n' then cs.dropLast else cs) []

/-- Python `"\n".join(ls)`. -/
def joinNl : List String → String
  | [] => ""
  | [l] => l
  | l :: rest => l ++ "\n" ++ joinNl rest

/-- Python `" ".join(ls)`. -/
def joinSp : List String → String
  | [] => ""
  | [l] => l
  | l :: rest => l ++ " " ++ joinSp rest

/-- `HEADING_PREFIX_RE` = `^\#{1,6}\s+`: one to six leading `#` followed by
at least one whitespace character. -/
def headingPrefixMatch (s : String) : Bool :=
  let h := (s.data.takeWhile (· == '#')).length
  decide (1 ≤ h) && decide (h ≤ 6) &&
    (match s.data.drop h with
     | ch :: _ => isWS ch
     | [] => false)

/-- `HEADING_LINE_RE` = `^(?P<hashes>\#{1,6})\s+(?P<text>.*)$`: returns the
level and the text after the (greedy) whitespace run. -/
def headingLineMatch (s : String) : Option (Nat × String) :=
  let h := (s.data.takeWhile (· == '#')).length
  if 1 ≤ h ∧ h ≤ 6 then
    let rest := s.data.drop h
    let ws := rest.takeWhile isWS
    if ws.length = 0 then none
    else some (h, ⟨rest.drop ws.length⟩)
  else none

/-- `TAB_HEADER_RE` = `^===\s*"(?P<title>[^"]+)"`: returns the quoted title. -/
def tabHeaderMatch (s : String) : Option String :=
  if pyStartsWith s "===" then
    let rest := (s.data.drop 3).dropWhile isWS
    match rest with
    | '"' :: rest2 =>
      let title := rest2.takeWhile (· != '"')
      if title.length = 0 then none
      else
        match rest2.drop title.length with
        | '"' :: _ => some ⟨title⟩
        | _ => none
    | _ => none
  else none

/-- `UNORDERED_MARKER_RE` = `^(?P<indent>\s*)(?P<marker>[-+*])\s+`. -/
def unorderedMatch (s : String) : Bool :=
  match s.data.dropWhile isWS with
  | m :: ch :: _ => (m == '-' || m == '+' || m == '*') && isWS ch
  | _ => false

/-- The remainder of `UNORDERED_MARKER_RE.sub("", line, count=1)`: drop the
indent, the marker and the greedy whitespace run after it. -/
def unorderedSub (s : String) : String :=
  if unorderedMatch s then
    ⟨((s.data.dropWhile isWS).drop 1).dropWhile isWS⟩
  else s

/-- `ORDERED_MARKER_RE` = `^(?P<indent>\s*)(?P<num>\d+)(?P<delim>[.)])\s+`. -/
def orderedMatch (s : String) : Bool :=
  let rest := s.data.dropWhile isWS
  let digits := rest.takeWhile Char.isDigit
  decide (1 ≤ digits.length) &&
    (match rest.drop digits.length with
     | d :: ch :: _ => (d == '.' || d == ')') && isWS ch
     | _ => false)

/-- The remainder of `ORDERED_MARKER_RE.sub("", line, count=1)`. -/
def orderedSub (s : String) : String :=
  if orderedMatch s then
    let rest := s.data.dropWhile isWS
    let digits := rest.takeWhile Char.isDigit
    ⟨((rest.drop digits.length).drop 1).dropWhile isWS⟩
  else s

/-- `PARA_BREAK_RE` used with `re.match`: a code fence, heading, unindented
list marker, blockquote (`>` with optional space, i.e. just a `>` prefix),
`!!!`, `???` or `:::` at the very start of the line.  Note the pattern has
no alternative for the `===` tab header. -/
def paraBreak (s : String) : Bool :=
  pyStartsWith s "```" || headingPrefixMatch s ||
  (match s.data with
   | m :: ch :: _ => (m == '-' || m == '+' || m == '*') && isWS ch
   | _ => false) ||
  (let digits := s.data.takeWhile Char.isDigit
   decide (1 ≤ digits.length) &&
     (match s.data.drop digits.length with
      | d :: ch :: _ => (d == '.' || d == ')') && isWS ch
      | _ => false)) ||
  pyStartsWith s ">" || pyStartsWith s "!!!" || pyStartsWith s "???" ||
  pyStartsWith s ":::"

/-!
## AST node definitions (`Node` subclasses in the source)

All node kinds carry `start_line` and `limit_line` first.  `ListItem`
children and `Tab`s are represented as `Node`s built with the `listItem`
and `tab` constructors, mirroring the Python dataclasses.
-/

inductive Node where
  | heading (start_line limit_line level : Nat) (value : String)
  | paragraph (start_line limit_line : Nat) (value : String)
  | codeBlock (start_line limit_line : Nat) (language : Option String) (meta content : String)
  | listItem (start_line limit_line : Nat) (blocks : List Node)
  | unorderedList (start_line limit_line : Nat) (items : List Node)
  | orderedList (start_line limit_line : Nat) (items : List Node)
  | quoteBlock (start_line limit_line : Nat) (lines : List String)
  | tab (start_line limit_line : Nat) (title : String) (blocks : List Node)
  | tabBlock (start_line limit_line : Nat) (tabs : List Node)
  | admonition (start_line limit_line : Nat) (tag title : String) (blocks : List Node) (foldable : Bool)
deriving Repr

structure Document where
  start_line : Nat
  limit_line : Nat
  blocks : List Node
deriving Repr

def nodeStart : Node → Nat
  | .heading s _ _ _ => s
  | .paragraph s _ _ => s
  | .codeBlock s _ _ _ _ => s
  | .listItem s _ _ => s
  | .unorderedList s _ _ => s
  | .orderedList s _ _ => s
  | .quoteBlock s _ _ => s
  | .tab s _ _ _ => s
  | .tabBlock s _ _ => s
  | .admonition s _ _ _ _ _ => s

def nodeLimit : Node → Nat
  | .heading _ l _ _ => l
  | .paragraph _ l _ => l
  | .codeBlock _ l _ _ _ => l
  | .listItem _ l _ => l
  | .unorderedList _ l _ => l
  | .orderedList _ l _ => l
  | .quoteBlock _ l _ => l
  | .tab _ l _ _ => l
  | .tabBlock _ l _ => l
  | .admonition _ l _ _ _ _ => l

/-!
## Pure consumption loops

Each Python `while` loop that only inspects and consumes lines is a
structural recursion over the remaining-lines list.  Every loop returns the
payload it accumulated, the number of lines consumed, and the remaining
lines.
-/

/-- Loop body of `parse_code_block`: consume raw lines until (and including)
a line whose stripped form starts with a closing fence, or end of input. -/
def takeCode : List String → List String × Nat × List String
  | [] => ([], 0, [])
  | l :: rest =>
    if pyStartsWith (pyStrip l) "```" then ([], 1, rest)
    else
      let (cs, k, r) := takeCode rest
      (l :: cs, k + 1, r)

/-- Loop of `parse_quote_block`: consume while the left-stripped line starts
with `>`, recording the line with one `>` and following whitespace removed. -/
def takeQuote : List String → List String × Nat × List String
  | [] => ([], 0, [])
  | l :: rest =>
    if pyStartsWith (pyLstrip l) ">" then
      let (ls, k, r) := takeQuote rest
      (pyLstrip ⟨(pyLstrip l).data.drop 1⟩ :: ls, k + 1, r)
    else ([], 0, l :: rest)

/-- Blank-line skipping loops in `parse_admonition` / `parse_tab_block`:
consume while the stripped line is empty. -/
def skipBlanks : List String → Nat × List String
  | [] => (0, [])
  | l :: rest =>
    if pyStrip l = "" then
      let (k, r) := skipBlanks rest
      (k + 1, r)
    else (0, l :: rest)

/-- Body loop of `parse_admonition`: consume while the line starts with four
spaces or a tab, recording the left-stripped line. -/
def takeIndented : List String → List String × Nat × List String
  | [] => ([], 0, [])
  | l :: rest =>
    if pyStartsWith l "    " || pyStartsWith l "\t" then
      let (ls, k, r) := takeIndented rest
      (pyLstrip l :: ls, k + 1, r)
    else ([], 0, l :: rest)

/-- Content loop of one tab in `parse_tab_block`: consume while the line is
not a tab header, not blank, and indented (four spaces or a tab). -/
def takeTabContent : List String → List String × Nat × List String
  | [] => ([], 0, [])
  | l :: rest =>
    match tabHeaderMatch l with
    | some _ => ([], 0, l :: rest)
    | none =>
      if pyStrip l = "" then ([], 0, l :: rest)
      else if pyStartsWith l "    " || pyStartsWith l "\t" then
        let (ls, k, r) := takeTabContent rest
        (pyLstrip l :: ls, k + 1, r)
      else ([], 0, l :: rest)

/-- Loop of `parse_paragraph`: consume while the line is non-blank and does
not match `PARA_BREAK_RE`, recording the stripped line. -/
def takePara : List String → List String × Nat × List String
  | [] => ([], 0, [])
  | l :: rest =>
    if pyStrip l = "" || paraBreak l then ([], 0, l :: rest)
    else
      let (ls, k, r) := takePara rest
      (pyStrip l :: ls, k + 1, r)

/-- `Parser._collect_list_items`: one `ListItem` wrapping one `Paragraph` per
line matching the marker, with the marker match removed and the rest
right-stripped. -/
def collectItems (isM : String → Bool) (sub : String → String) :
    Nat → List String → List Node × Nat × List String
  | c, [] => ([], c, [])
  | c, l :: rest =>
    if isM l then
      let ln := c + 1
      let text := pyRstrip (sub l)
      let para := Node.paragraph ln (ln + 1) text
      let item := Node.listItem ln (ln + 1) [para]
      let (items, c2, rest2) := collectItems isM sub (c + 1) rest
      (item :: items, c2, rest2)
    else ([], c, l :: rest)

/-!
## Pure block handlers

Each takes the current line index `c` and the remaining lines, and returns
the node, the new index and the new remaining lines, exactly as the Python
methods manipulate `self.current`.
-/

/-- `Parser.parse_code_block`. -/
def parseCodeBlock (c : Nat) (rest : List String) : Node × Nat × List String :=
  let start_ln := c + 1
  let fenceLine := pyStrip (rest.headD "")
  let fenceBody := pyStrip ⟨fenceLine.data.drop 3⟩
  let lm : Option String × String :=
    if fenceBody = "" then (none, "")
    else
      match splitWs1 fenceBody with
      | [lang] => (some lang, "")
      | lang :: m :: _ => (some lang, m)
      | [] => (none, "")
  let (content, k, rest2) := takeCode rest.tail
  let c2 := c + 1 + k
  (Node.codeBlock start_ln (c2 + 1) lm.1 lm.2 (joinNl content), c2, rest2)

/-- `Parser.parse_heading`, including the guarded level-1 fallback for lines
whose stripped form fails `HEADING_LINE_RE`. -/
def parseHeading (c : Nat) (rest : List String) : Node × Nat × List String :=
  let start_ln := c + 1
  let line := pyStrip (rest.headD "")
  match headingLineMatch line with
  | none => (Node.heading start_ln (start_ln + 1) 1 line, c + 1, rest.tail)
  | some (lvl, text) => (Node.heading start_ln (start_ln + 1) lvl text, c + 1, rest.tail)

/-- `Parser.parse_unordered_list`. -/
def parseUnorderedList (c : Nat) (rest : List String) : Node × Nat × List String :=
  let (items, c2, rest2) := collectItems unorderedMatch unorderedSub c rest
  (Node.unorderedList (c + 1) (c2 + 1) items, c2, rest2)

/-- `Parser.parse_ordered_list`. -/
def parseOrderedList (c : Nat) (rest : List String) : Node × Nat × List String :=
  let (items, c2, rest2) := collectItems orderedMatch orderedSub c rest
  (Node.orderedList (c + 1) (c2 + 1) items, c2, rest2)

/-- `Parser.parse_quote_block`. -/
def parseQuoteBlock (c : Nat) (rest : List String) : Node × Nat × List String :=
  let (ls, k, rest2) := takeQuote rest
  (Node.quoteBlock (c + 1) (c + k + 1) ls, c + k, rest2)

/-- `Parser.parse_paragraph`. -/
def parseParagraph (c : Nat) (rest : List String) : Node × Nat × List String :=
  let (ls, k, rest2) := takePara rest
  (Node.paragraph (c + 1) (c + k + 1) (joinSp ls), c + k, rest2)

/-!
## The fuel-indexed parser core

`parse` / `parse_block` / the tab loop recursively invoke a fresh parse on
the joined nested content, and the Python `parse()` loop does not terminate
on every input, so the whole bundle is indexed by fuel.  Every recursive
call strictly decreases the fuel; `none` means the fuel was exhausted.
A run that returns `some` is a faithful transcript of the Python execution.
-/

mutual

/-- `Parser.parse` on an already-split line list (`Parser.__init__` performs
`text.splitlines()`; `total` is the length of that list). -/
def parse : Nat → List String → Option Document
  | 0, _ => none
  | fuel + 1, lines => (parseLoop fuel 0 lines).map fun bs => ⟨1, lines.length + 1, bs⟩

/-- The `while not self.eof()` loop inside `Parser.parse`, collecting the
non-`None` results of `parse_block` in order. -/
def parseLoop : Nat → Nat → List String → Option (List Node)
  | 0, _, _ => none
  | fuel + 1, c, rest =>
    match rest with
    | [] => some []
    | _ :: _ =>
      match parseBlock fuel c rest with
      | none => none
      | some (none, c2, rest2) => parseLoop fuel c2 rest2
      | some (some n, c2, rest2) => (parseLoop fuel c2 rest2).map fun bs => n :: bs

/-- `Parser.parse_block`: the dispatcher, including the admonition handler
(`parse_admonition`) and the tab-block handler (`parse_tab_block`), both of
which recursively parse their de-indented content with a fresh parser. -/
def parseBlock : Nat → Nat → List String → Option (Option Node × Nat × List String)
  | 0, _, _ => none
  | fuel + 1, c, rest =>
    let line := rest.headD ""
    if line = "" then some (none, c + 1, rest.tail)
    else if pyStartsWith line "```" then
      let (n, c2, r2) := parseCodeBlock c rest
      some (some n, c2, r2)
    else if headingPrefixMatch line then
      let (n, c2, r2) := parseHeading c rest
      some (some n, c2, r2)
    else if unorderedMatch line then
      let (n, c2, r2) := parseUnorderedList c rest
      some (some n, c2, r2)
    else if orderedMatch line then
      let (n, c2, r2) := parseOrderedList c rest
      some (some n, c2, r2)
    else if pyStartsWith line ">" then
      let (n, c2, r2) := parseQuoteBlock c rest
      some (some n, c2, r2)
    else if pyStartsWith line "!!!" || pyStartsWith line "???" then
      let header := pyStrip line
      let parts := splitWs1 header
      let tag := parts.headD ""
      let title := match parts with
                   | _ :: t :: _ => stripQuotes t
                   | _ => ""
      let (k1, rest2) := skipBlanks rest.tail
      let (body, k2, rest3) := takeIndented rest2
      let c2 := c + 1 + k1 + k2
      match parse fuel (splitlinesNl (joinNl body)) with
      | none => none
      | some inner =>
        some (some (Node.admonition (c + 1) (c2 + 1) tag title inner.blocks false), c2, rest3)
    else if pyStartsWith line "===" then
      match parseTabs fuel c rest with
      | none => none
      | some (tabs, c2, rest2) =>
        some (some (Node.tabBlock (c + 1) (c2 + 1) tabs), c2, rest2)
    else
      let (n, c2, r2) := parseParagraph c rest
      some (some n, c2, r2)

/-- The tab loop of `Parser.parse_tab_block`: while the current line matches
`TAB_HEADER_RE`, consume the header, skip blank lines, consume the indented
content, and recursively parse the joined content into the tab's blocks. -/
def parseTabs : Nat → Nat → List String → Option (List Node × Nat × List String)
  | 0, _, _ => none
  | fuel + 1, c, rest =>
    match rest with
    | [] => some ([], c, [])
    | l :: rest1 =>
      match tabHeaderMatch l with
      | none => some ([], c, l :: rest1)
      | some title =>
        let (k1, rest2) := skipBlanks rest1
        let (content, k2, rest3) := takeTabContent rest2
        let c2 := c + 1 + k1 + k2
        match parse fuel (splitlinesNl (joinNl content)) with
        | none => none
        | some inner =>
          match parseTabs fuel c2 rest3 with
          | none => none
          | some (tabs, c3, rest4) =>
            some (Node.tab (c + 1) (c2 + 1) title inner.blocks :: tabs, c3, rest4)

end

/-- `Parser(text).parse()`: split the text into lines, then parse. -/
def parseText (fuel : Nat) (text : String) : Option Document :=
  parse fuel (splitlinesNl text)

/-!
## Inline splitter (modelled from the spec)
-/

/-- Modelled from the spec: the `TextInline` / `LinkInline` node kinds of the
inline splitter (spec section 4.3).  The inline splitter is code of this
repository that is not under `src/` (the `Paragraph` dataclass there stores
the raw joined text), so it is modelled from the spec's words. -/
inductive Inline where
  | text (value : String)
  | link (text url : String)
deriving Repr, DecidableEq

/-- Modelled from the spec: attempt to read one `[text](url)` link pattern at
the head of the character list, returning the label, the URL and the rest. -/
def tryLink : List Char → Option (String × String × List Char)
  | '[' :: rest =>
    let label := rest.takeWhile (· != ']')
    if label.length = 0 then none
    else
      match rest.drop label.length with
      | ']' :: '(' :: rest2 =>
        let url := rest2.takeWhile (· != ')')
        if url.length = 0 then none
        else
          match rest2.drop url.length with
          | ')' :: rest3 => some (⟨label⟩, ⟨url⟩, rest3)
          | _ => none
      | _ => none
  | _ => none

/-- Emit the pending literal run (held in reverse) unless it is empty. -/
def flushText (acc : List Char) (tail : List Inline) : List Inline :=
  match acc with
  | [] => tail
  | _ => Inline.text ⟨acc.reverse⟩ :: tail

/-- Modelled from the spec: single left-to-right scan splitting literal text
into `TextInline` / `LinkInline` runs; the fuel is the number of remaining
characters, which every step strictly decreases. -/
def splitInlinesAux : Nat → List Char → List Char → List Inline
  | 0, cs, acc => flushText (cs.reverse ++ acc) []
  | fuel + 1, cs, acc =>
    match cs with
    | [] => flushText acc []
    | c :: rest =>
      match tryLink (c :: rest) with
      | some (label, url, rest3) =>
        flushText acc (Inline.link label url :: splitInlinesAux fuel rest3 [])
      | none => splitInlinesAux fuel rest (c :: acc)

/-- Modelled from the spec (section 4.3 Inline Splitter): split literal text
left to right at `[text](url)` link patterns; literal text strictly between
and around matches becomes `TextInline`, every match becomes exactly one
`LinkInline`, and empty leading/trailing literal runs are omitted. -/
def splitInlines (s : String) : List Inline :=
  splitInlinesAux s.data.length s.data []

/-!
## Span-invariant checkers
-/

/-- `spanChain lo hi bs`: each node's span is contained in `[lo, hi)`, is
non-empty, and each node starts no earlier than the previous node's limit —
i.e. sibling spans are non-overlapping and strictly increasing and contained
in the enclosing span. -/
def spanChain (lo hi : Nat) : List Node → Bool
  | [] => true
  | b :: rest =>
    decide (lo ≤ nodeStart b) && decide (nodeStart b < nodeLimit b) &&
      decide (nodeLimit b ≤ hi) && spanChain (nodeLimit b) hi rest

mutual

/-- The property claimed for the whole tree: every child's span is contained
in its parent's span and siblings are non-overlapping and increasing, at
every node, including the blocks nested inside `Admonition` and `Tab`. -/
def claimOk : Node → Bool
  | .heading _ _ _ _ => true
  | .paragraph _ _ _ => true
  | .codeBlock _ _ _ _ _ => true
  | .quoteBlock _ _ _ => true
  | .listItem s l bs => spanChain s l bs && claimOkList bs
  | .unorderedList s l bs => spanChain s l bs && claimOkList bs
  | .orderedList s l bs => spanChain s l bs && claimOkList bs
  | .tab s l _ bs => spanChain s l bs && claimOkList bs
  | .tabBlock s l bs => spanChain s l bs && claimOkList bs
  | .admonition s l _ _ bs _ => spanChain s l bs && claimOkList bs

def claimOkList : List Node → Bool
  | [] => true
  | b :: rest => claimOk b && claimOkList rest

end

/-- The claimed invariant at the root. -/
def docClaimOk (d : Document) : Bool :=
  spanChain d.start_line d.limit_line d.blocks && claimOkList d.blocks

mutual

/-- The invariant that actually holds: span containment and sibling ordering
for all nodes produced by the *same* parser pass.  The blocks nested inside
`Admonition` and `Tab` nodes come from a fresh recursive parser whose line
numbers restart at 1, so they are not checked against the outer span. -/
def sameLevelOk : Node → Bool
  | .heading _ _ _ _ => true
  | .paragraph _ _ _ => true
  | .codeBlock _ _ _ _ _ => true
  | .quoteBlock _ _ _ => true
  | .listItem s l bs => spanChain s l bs && sameLevelOkList bs
  | .unorderedList s l bs => spanChain s l bs && sameLevelOkList bs
  | .orderedList s l bs => spanChain s l bs && sameLevelOkList bs
  | .tab _ _ _ _ => true
  | .tabBlock s l bs => spanChain s l bs && sameLevelOkList bs
  | .admonition _ _ _ _ _ _ => true

def sameLevelOkList : List Node → Bool
  | [] => true
  | b :: rest => sameLevelOk b && sameLevelOkList rest

end

/-- The per-pass invariant at the root. -/
def docSameLevelOk (d : Document) : Bool :=
  spanChain d.start_line d.limit_line d.blocks && sameLevelOkList d.blocks

/-- The title of the unique top-level admonition, when the document consists
of exactly one admonition block. -/
def firstAdmTitle (d : Document) : Option String :=
  match d.blocks with
  | [Node.admonition _ _ _ t _ _] => some t
  | _ => none

/-- How many top-level blocks of a document are `TabBlock`s. -/
def countTabBlocks (d : Document) : Nat :=
  d.blocks.countP fun n =>
    match n with
    | Node.tabBlock _ _ _ => true
    | _ => false

/-- The paragraph-continuation predicate of `parse_paragraph`'s loop: the
line is non-blank and does not match `PARA_BREAK_RE`. -/
def paraLine (l : String) : Bool := !(decide (pyStrip l = "") || paraBreak l)

/-- The quote-continuation predicate of `parse_quote_block`'s loop: the
left-stripped line starts with `>`. -/
def isQuoteLine (l : String) : Bool := pyStartsWith (pyLstrip l) ">"

/-- The transformation `parse_quote_block` applies to each consumed line:
left-strip, drop the leading `>`, left-strip again. -/
def quoteText (l : String) : String := pyLstrip ⟨(pyLstrip l).data.drop 1⟩

/-- The parser diverges on this text: no amount of fuel makes
`Parser(text).parse()` finish. -/
def divergesOnText (text : String) : Prop := ∀ fuel, parseText fuel text = none

/-!
## Helper lemmas
-/

/-- The paragraph loop is exactly a `takeWhile` over the continuation
predicate, stripping each consumed line, with the rest left in place. -/
theorem takePara_eq (rest : List String) :
    takePara rest = ((rest.takeWhile paraLine).map pyStrip,
      (rest.takeWhile paraLine).length, rest.dropWhile paraLine) := by
  induction rest with
  | nil => rfl
  | cons l rest ih =>
    by_cases h : (decide (pyStrip l = "") || paraBreak l) = true
    · simp [takePara, paraLine, List.takeWhile, List.dropWhile, h]
    · simp [takePara, paraLine, List.takeWhile, List.dropWhile, h, ih]

/-- The quote loop is exactly a `takeWhile` over lines whose left-stripped
form starts with `>`, applying `quoteText` to each consumed line. -/
theorem takeQuote_eq (rest : List String) :
    takeQuote rest = ((rest.takeWhile isQuoteLine).map quoteText,
      (rest.takeWhile isQuoteLine).length, rest.dropWhile isQuoteLine) := by
  induction rest with
  | nil => rfl
  | cons l rest ih =>
    by_cases h : pyStartsWith (pyLstrip l) ">" = true
    · simp [takeQuote, isQuoteLine, quoteText, List.takeWhile, List.dropWhile, h, ih]
    · simp [takeQuote, isQuoteLine, List.takeWhile, List.dropWhile, h, ih]

/-- When no remaining line strips to a closing fence, the code-block loop
consumes every remaining line. -/
theorem takeCode_all (rest : List String)
    (h : ∀ l ∈ rest, pyStartsWith (pyStrip l) "```" = false) :
    takeCode rest = (rest, rest.length, []) := by
  induction rest with
  | nil => rfl
  | cons l rest ih =>
    have h1 := h l (by simp)
    have h2 : ∀ l2 ∈ rest, pyStartsWith (pyStrip l2) "```" = false := by
      intro l2 hl2; exact h l2 (by simp [hl2])
    simp [takeCode, h1, ih h2]

/-- A line starting with `===` has `=` as its first three characters. -/
theorem startsWith_three_eq (l : String) (h : pyStartsWith l "===" = true) :
    ∃ t, l.data = '=' :: '=' :: '=' :: t := by
  have h2 : ("===".data : List Char) <+: l.data :=
    List.isPrefixOf_iff_prefix.mp h
  obtain ⟨t, ht⟩ := h2
  exact ⟨t, by rw [← ht]; rfl⟩

/-- `PARA_BREAK_RE` does not match any line starting with `===`: the tab
header is missing from the paragraph-break pattern. -/
theorem paraBreak_of_tab (l : String) (h : pyStartsWith l "===" = true) :
    paraBreak l = false := by
  obtain ⟨t, ht⟩ := startsWith_three_eq l h
  simp [paraBreak, pyStartsWith, headingPrefixMatch, ht, List.isPrefixOf, List.takeWhile]

/-!
## Claim theorems
-/

/-- C3, counterexample: parsing `'??? note "Title"\n    body line'` yields an
admonition whose title is `'note "Title'` — the whole remainder after the tag
with only its trailing quote stripped — not `"Title"` as claimed. -/
theorem C3_admonition_title_counterexample :
    (parseText 100 "??? note \"Title\"\n    body line").map firstAdmTitle =
      some (some "note \"Title") ∧ ("note \"Title" : String) ≠ "Title" :=
  ⟨rfl, by decide⟩

/-- C3, amended: parsing `'??? note "Title"\n    body line'` yields exactly
one `Admonition` with tag `???`, title `'note "Title'` (the remainder after
the tag, `parts[1].strip('"')`), `foldable = False`, and nested blocks being
exactly one `Paragraph` with text `"body line"`. -/
theorem C3_admonition_parse_amended :
    parseText 100 "??? note \"Title\"\n    body line" =
      some ⟨1, 3, [Node.admonition 1 3 "???" "note \"Title"
        [Node.paragraph 1 2 "body line"] false]⟩ := rfl

/-- C4, counterexample: a line matching the tab-header pattern *is* absorbed
into a preceding paragraph, because `PARA_BREAK_RE` has no `===`
alternative: `"hello\n=== \"A\""` parses to one paragraph `'hello === "A"'`
even though `'=== "A"'` matches `TAB_HEADER_RE`. -/
theorem C4_tab_header_absorbed_counterexample :
    parseText 100 "hello\n=== \"A\"" =
      some ⟨1, 3, [Node.paragraph 1 3 "hello === \"A\""]⟩ ∧
    tabHeaderMatch "=== \"A\"" = some "A" := ⟨rfl, rfl⟩

/-- C4, amended: the paragraph loop consumes exactly the maximal run of
lines that are non-blank and match none of the `PARA_BREAK_RE` patterns
(code fence, heading, unindented list marker, blockquote, `!!!`, `???`,
`:::`), strips each and joins them with single spaces; lines starting with
`===` (in particular tab headers) are not break patterns and are absorbed. -/
theorem C4_paragraph_break_amended :
    (∀ (c : Nat) (rest : List String), parseParagraph c rest =
      (Node.paragraph (c + 1) (c + (rest.takeWhile paraLine).length + 1)
        (joinSp ((rest.takeWhile paraLine).map pyStrip)),
       c + (rest.takeWhile paraLine).length, rest.dropWhile paraLine)) ∧
    (∀ l : String, pyStartsWith l "===" = true → paraBreak l = false) := by
  refine ⟨fun c rest => ?_, fun l h => paraBreak_of_tab l h⟩
  simp [parseParagraph, takePara_eq]

/-- C4, witness: the amended theorem applied to the counterexample input. -/
theorem C4_paragraph_break_witness :
    parseParagraph 0 ["hello", "=== \"A\""] =
      (Node.paragraph (0 + 1) (0 + (["hello", "=== \"A\""].takeWhile paraLine).length + 1)
        (joinSp ((["hello", "=== \"A\""].takeWhile paraLine).map pyStrip)),
       0 + (["hello", "=== \"A\""].takeWhile paraLine).length,
       ["hello", "=== \"A\""].dropWhile paraLine) ∧
    paraBreak "=== \"A\"" = false :=
  ⟨C4_paragraph_break_amended.1 0 ["hello", "=== \"A\""],
   C4_paragraph_break_amended.2 "=== \"A\"" (by decide)⟩

/-- C5, counterexample: two tab headers separated by a blank line yield *two*
`TabBlock`s, not one: the content loop stops at the blank line and the tab
loop immediately re-tests the blank line against `TAB_HEADER_RE`, which
fails, ending the block. -/
theorem C5_blank_separated_tabs_counterexample :
    parseText 100 "=== \"A\"\n    x\n\n=== \"B\"\n    y" =
      some ⟨1, 6, [Node.tabBlock 1 3 [Node.tab 1 3 "A" [Node.paragraph 1 2 "x"]],
                   Node.tabBlock 4 6 [Node.tab 4 6 "B" [Node.paragraph 1 2 "y"]]]⟩ ∧
    (parseText 100 "=== \"A\"\n    x\n\n=== \"B\"\n    y").map countTabBlocks ≠ some 1 :=
  ⟨rfl, by decide⟩

/-- C5, amended: blank lines are skipped between a tab's header and its
content, but a tab's content ends at a blank line and the `TabBlock`
continues only if the line immediately after the content matches the
tab-header pattern; adjacent headers (the spec's own example) therefore
yield one `TabBlock` with both tabs, while blank-separated headers yield
two `TabBlock`s (see the counterexample). -/
theorem C5_adjacent_tabs_amended :
    parseText 100 "=== \"A\"\n    x\n=== \"B\"\n    y" =
      some ⟨1, 5, [Node.tabBlock 1 5 [Node.tab 1 3 "A" [Node.paragraph 1 2 "x"],
                                      Node.tab 3 5 "B" [Node.paragraph 1 2 "y"]]]⟩ := rfl

/-- C6: parsing `"See [docs](./guide.md)."` yields one paragraph holding the
raw text, and the inline splitter (modelled from the spec) splits that text
into `TextInline("See ")`, `LinkInline("docs","./guide.md")`,
`TextInline(".")` in order. -/
theorem C6_inline_runs :
    parseText 100 "See [docs](./guide.md)." =
      some ⟨1, 2, [Node.paragraph 1 2 "See [docs](./guide.md)."]⟩ ∧
    splitInlines "See [docs](./guide.md)." =
      [Inline.text "See ", Inline.link "docs" "./guide.md", Inline.text "."] :=
  ⟨rfl, rfl⟩

/-- C7, counterexample: the line `"# "` is selected by the dispatcher
(`HEADING_PREFIX_RE` matches), yet its stripped form `"#"` fails
`HEADING_LINE_RE`, so the guarded fallback *is* reachable and produces a
level-1 heading whose text is the stripped raw line. -/
theorem C7_fallback_reachable_counterexample :
    headingPrefixMatch "# " = true ∧ headingLineMatch (pyStrip "# ") = none ∧
    parseText 100 "# " = some ⟨1, 2, [Node.heading 1 2 1 "#"]⟩ :=
  ⟨rfl, rfl, rfl⟩

/-- C7, amended: the fallback is reachable (exactly for dispatched lines of
hashes followed only by whitespace, e.g. `"# "`); whenever a dispatched
line's stripped form fails the full heading pattern, the handler returns a
level-1 `Heading` whose text is the stripped raw line, consuming one line. -/
theorem C7_heading_fallback_amended (c : Nat) (l : String) (rest : List String)
    (_hd : headingPrefixMatch l = true)
    (hm : headingLineMatch (pyStrip l) = none) :
    parseHeading c (l :: rest) =
      (Node.heading (c + 1) (c + 2) 1 (pyStrip l), c + 1, rest) := by
  simp [parseHeading, List.headD, hm]

/-- C7, witness: the amended theorem applied at the line `"# "`. -/
theorem C7_heading_fallback_witness :
    parseHeading 0 ["# "] = (Node.heading 1 2 1 (pyStrip "# "), 1, []) :=
  C7_heading_fallback_amended 0 "# " [] (by decide) (by decide)

/-- C9: an unterminated code fence is not an error — when no remaining line
strips to a closing fence the loop consumes every remaining line, and
`"```py\ncode\n"` parses to exactly one `CodeBlock` with language `py`,
empty meta, content `"code"`, `start_line = 1` and `limit_line = 3`. -/
theorem C9_unterminated_fence :
    (∀ rest : List String, (∀ l ∈ rest, pyStartsWith (pyStrip l) "```" = false) →
      takeCode rest = (rest, rest.length, [])) ∧
    parseText 100 "```py\ncode\n" =
      some ⟨1, 3, [Node.codeBlock 1 3 (some "py") "" "code"]⟩ :=
  ⟨takeCode_all, rfl⟩

/-- C9, witness: the universal part applied to the concrete tail
`["code"]`. -/
theorem C9_unterminated_fence_witness :
    takeCode ["code"] = (["code"], 1, []) :=
  C9_unterminated_fence.1 ["code"] (by decide)

/-- If the dispatcher at a state returns a node without consuming any line
(for every fuel, it either runs out of fuel or returns the same state), then
the `parse()` loop never finishes from that state, whatever the fuel. -/
theorem parseLoop_frozen (l : String) (rest : List String)
    (hcases : ∀ f c, parseBlock f c (l :: rest) = none ∨
      ∃ n, parseBlock f c (l :: rest) = some (some n, c, l :: rest)) :
    ∀ fuel c, parseLoop fuel c (l :: rest) = none := by
  intro fuel
  induction fuel with
  | zero => intro c; rfl
  | succ f ih =>
    intro c
    rcases hcases f c with hnone | ⟨n, hsome⟩
    · simp only [parseLoop, hnone]
    · simp only [parseLoop, hsome]
      simp [ih]

/-- A line that reaches the `===` dispatch branch but fails `TAB_HEADER_RE`
(no quoted title) freezes the cursor: `parse_tab_block`'s loop never runs,
and an empty `TabBlock` is returned without consuming any line. -/
theorem parseBlock_frozen_tab_cases (l : String) (rest : List String)
    (hne : ¬ l = "") (hcf : pyStartsWith l "```" = false)
    (hh : headingPrefixMatch l = false) (hu : unorderedMatch l = false)
    (ho : orderedMatch l = false) (hq : pyStartsWith l ">" = false)
    (ha1 : pyStartsWith l "!!!" = false) (ha2 : pyStartsWith l "???" = false)
    (ht : pyStartsWith l "===" = true) (htm : tabHeaderMatch l = none) :
    ∀ f c, parseBlock f c (l :: rest) = none ∨
      ∃ n, parseBlock f c (l :: rest) = some (some n, c, l :: rest) := by
  intro f c
  rcases f with _ | g
  · exact Or.inl rfl
  · rcases g with _ | h
    · left
      simp [parseBlock, parseTabs, List.headD, hne, hcf, hh, hu, ho, hq, ha1, ha2, ht]
    · right
      refine ⟨Node.tabBlock (c + 1) (c + 1) [], ?_⟩
      simp [parseBlock, parseTabs, List.headD, hne, hcf, hh, hu, ho, hq, ha1, ha2, ht, htm]

/-- A non-empty line that falls through every dispatch guard to the
paragraph handler but immediately stops the paragraph loop (blank when
stripped, or matching `PARA_BREAK_RE`) freezes the cursor: an empty
`Paragraph` is returned without consuming any line. -/
theorem parseBlock_frozen_para_cases (l : String) (rest : List String)
    (hne : ¬ l = "") (hcf : pyStartsWith l "```" = false)
    (hh : headingPrefixMatch l = false) (hu : unorderedMatch l = false)
    (ho : orderedMatch l = false) (hq : pyStartsWith l ">" = false)
    (ha1 : pyStartsWith l "!!!" = false) (ha2 : pyStartsWith l "???" = false)
    (hte : pyStartsWith l "===" = false)
    (hbk : (decide (pyStrip l = "") || paraBreak l) = true) :
    ∀ f c, parseBlock f c (l :: rest) = none ∨
      ∃ n, parseBlock f c (l :: rest) = some (some n, c, l :: rest) := by
  intro f c
  rcases f with _ | g
  · exact Or.inl rfl
  · right
    refine ⟨Node.paragraph (c + 1) (c + 1) "", ?_⟩
    simp [parseBlock, parseParagraph, takePara, List.headD,
      hne, hcf, hh, hu, ho, hq, ha1, ha2, hte, hbk, joinSp]

/-- C1: the parser does **not** terminate on every input.  On the single
line `===` the dispatcher selects the tab-block handler (the line starts
with `===`) but `TAB_HEADER_RE` requires a quoted title, so the handler
returns an empty `TabBlock` without advancing the cursor and `parse()`
loops forever; likewise a whitespace-only line falls through to the
paragraph handler, which consumes zero lines.  No amount of fuel makes the
embedded `parse` return. -/
theorem C1_parser_nontermination :
    divergesOnText "===" ∧ divergesOnText "   " := by
  constructor
  · intro fuel
    cases fuel with
    | zero => rfl
    | succ f =>
      have h := parseLoop_frozen "===" []
        (parseBlock_frozen_tab_cases "===" [] (by decide) (by decide) (by decide)
          (by decide) (by decide) (by decide) (by decide) (by decide) (by decide)
          (by decide)) f 0
      show (parseLoop f 0 ["==="]).map _ = none
      simp [h]
  · intro fuel
    cases fuel with
    | zero => rfl
    | succ f =>
      have h := parseLoop_frozen "   " []
        (parseBlock_frozen_para_cases "   " [] (by decide) (by decide) (by decide)
          (by decide) (by decide) (by decide) (by decide) (by decide) (by decide)
          (by decide)) f 0
      show (parseLoop f 0 ["   "]).map _ = none
      simp [h]

/-- When every line is the empty string, the `parse()` loop skips each of
them and finishes with no blocks, given fuel beyond the line count. -/
theorem parseLoop_all_blank (lines : List String)
    (hall : (lines.all fun l => l == "") = true) :
    ∀ fuel c, lines.length + 1 ≤ fuel → parseLoop fuel c lines = some [] := by
  induction lines with
  | nil =>
    intro fuel c hf
    rcases fuel with _ | f
    · omega
    · simp [parseLoop]
  | cons l rest ih =>
    intro fuel c hf
    simp only [List.all_cons, Bool.and_eq_true, beq_iff_eq] at hall
    obtain ⟨hl, hrest⟩ := hall
    subst hl
    rcases fuel with _ | f
    · omega
    · rcases f with _ | g
      · simp only [List.length_cons] at hf; omega
      · have := ih (by simpa [List.all_eq_true] using hrest)
          (g + 1) (c + 1) (by simp only [List.length_cons] at hf; omega)
        simp only [parseLoop, parseBlock]
        simpa using this

/-- C8: every `Document` the parser returns has `start_line = 1` and
`limit_line = total_lines + 1` where `total_lines` is the number of physical
lines of the input, regardless of content; and an input consisting only of
blank (empty) lines yields a `Document` with an empty block list. -/
theorem C8_document_span :
    (∀ fuel text d, parseText fuel text = some d →
      d.start_line = 1 ∧ d.limit_line = (splitlinesNl text).length + 1) ∧
    (∀ fuel text, ((splitlinesNl text).all fun l => l == "") = true →
      (splitlinesNl text).length + 2 ≤ fuel →
      parseText fuel text = some ⟨1, (splitlinesNl text).length + 1, []⟩) := by
  constructor
  · intro fuel text d h
    rcases fuel with _ | f
    · simp [parseText, parse] at h
    · simp only [parseText, parse, Option.map_eq_some'] at h
      obtain ⟨bs, _, hd⟩ := h
      rw [← hd]
      exact ⟨rfl, rfl⟩
  · intro fuel text hall hf
    rcases fuel with _ | f
    · omega
    · have h := parseLoop_all_blank (splitlinesNl text) hall f 0 (by omega)
      simp [parseText, parse, h]

/-- C8, witness: both parts at concrete inputs (`""` and `"\n\n"`). -/
theorem C8_document_span_witness :
    ((Document.mk 1 1 []).start_line = 1 ∧
      (Document.mk 1 1 []).limit_line = (splitlinesNl "").length + 1) ∧
    parseText 4 "\n\n" = some ⟨1, (splitlinesNl "\n\n").length + 1, []⟩ :=
  ⟨C8_document_span.1 3 "" ⟨1, 1, []⟩ rfl,
   C8_document_span.2 4 "\n\n" (by decide) (by decide)⟩

/-- Enumeration of the whitespace characters. -/
theorem isWS_cases (ch : Char) (h : isWS ch = true) :
    ch = ' ' ∨ ch = '\t' ∨ ch = '\x0b' ∨ ch = '\x0c' ∨ ch = '\r' ∨ ch = '\n' := by
  have h2 := h
  simp [isWS] at h2
  tauto

/-- A string with a first character is not empty. -/
theorem ne_empty_of_data (l : String) (ch : Char) (t : List Char)
    (hd : l.data = ch :: t) : ¬ l = "" := by
  intro he
  subst he
  simp at hd

/-- A string changed by `lstrip` begins with a whitespace character. -/
theorem lstrip_ne_head (l : String) (h : pyLstrip l ≠ l) :
    ∃ ch t, l.data = ch :: t ∧ isWS ch = true := by
  rcases l with ⟨data⟩
  rcases data with _ | ⟨ch, t⟩
  · exact absurd rfl h
  · by_cases hw : isWS ch
    · exact ⟨ch, t, rfl, hw⟩
    · exact absurd (by simp [pyLstrip, List.dropWhile_cons, hw]) h

/-- If the left-stripped line starts with `>`, the first non-whitespace
character is `>`. -/
theorem quote_head_of_lstrip (l : String)
    (h : pyStartsWith (pyLstrip l) ">" = true) :
    ∃ t2, l.data.dropWhile isWS = '>' :: t2 := by
  rcases hd : l.data.dropWhile isWS with _ | ⟨d, t2⟩
  · simp [pyStartsWith, pyLstrip, hd, List.isPrefixOf] at h
  · simp only [pyStartsWith, pyLstrip, hd, List.isPrefixOf, Bool.and_eq_true,
      beq_iff_eq] at h
    exact ⟨t2, congrArg (fun x => x :: t2) h.1.symm⟩

/-- C10: blockquote recognition is asymmetric in indentation.  A line that
begins with whitespace but whose first non-whitespace character is `>` falls
through every dispatch guard to the paragraph handler (first conjunct); a
line that begins with `>` unindented starts a `QuoteBlock` that consumes
every following line whose left-stripped form starts with `>` — indented or
not — recording each with one leading `>` and following whitespace
stripped (second conjunct). -/
theorem C10_blockquote_asymmetric (fuel c : Nat) (l : String) (rest : List String) :
    (pyLstrip l ≠ l → pyStartsWith (pyLstrip l) ">" = true →
      parseBlock (fuel + 1) c (l :: rest) =
        some (some (parseParagraph c (l :: rest)).1,
          (parseParagraph c (l :: rest)).2.1, (parseParagraph c (l :: rest)).2.2)) ∧
    (pyStartsWith l ">" = true →
      parseBlock (fuel + 1) c (l :: rest) =
        some (some (Node.quoteBlock (c + 1)
            (c + ((l :: rest).takeWhile isQuoteLine).length + 1)
            (((l :: rest).takeWhile isQuoteLine).map quoteText)),
          c + ((l :: rest).takeWhile isQuoteLine).length,
          (l :: rest).dropWhile isQuoteLine)) := by
  constructor
  · intro h1 h2
    obtain ⟨ch, t, hd, hw⟩ := lstrip_ne_head l h1
    obtain ⟨t2, hq2⟩ := quote_head_of_lstrip l h2
    have hne := ne_empty_of_data l ch t hd
    rcases hpp : parseParagraph c (l :: rest) with ⟨n, c2, r2⟩
    rcases t2 with _ | ⟨d2, t3⟩ <;>
      rcases isWS_cases ch hw with rfl | rfl | rfl | rfl | rfl | rfl <;>
      rw [hd] at hq2 <;>
      simp [List.dropWhile_cons, isWS] at hq2 <;>
      simp [parseBlock, List.headD, hne, hd, hq2, pyStartsWith, List.isPrefixOf,
        headingPrefixMatch, unorderedMatch, orderedMatch, hpp, isWS, Char.isDigit,
        List.takeWhile_cons, List.dropWhile_cons]
  · intro h
    obtain ⟨t, hd⟩ : ∃ t, l.data = '>' :: t := by
      rcases hdd : l.data with _ | ⟨d, t⟩
      · simp [pyStartsWith, hdd, List.isPrefixOf] at h
      · simp only [pyStartsWith, hdd, List.isPrefixOf, Bool.and_eq_true,
          beq_iff_eq] at h
        exact ⟨t, congrArg (fun x => x :: t) h.1.symm⟩
    have hne := ne_empty_of_data l '>' t hd
    rcases t with _ | ⟨c2, t3⟩ <;>
      simp [parseBlock, List.headD, hne, hd, h, pyStartsWith, List.isPrefixOf,
        headingPrefixMatch, unorderedMatch, orderedMatch, parseQuoteBlock, isWS,
        Char.isDigit, takeQuote_eq, List.takeWhile_cons, List.dropWhile_cons]

/-- C10, witness: both conjuncts at concrete inputs — `" > x"` (indented `>`
line, parsed as a paragraph) and `"> a"` followed by the indented `" > b"`
(consumed into the same `QuoteBlock`). -/
theorem C10_blockquote_asymmetric_witness :
    (parseBlock 6 0 [" > x"] =
      some (some (parseParagraph 0 [" > x"]).1,
        (parseParagraph 0 [" > x"]).2.1, (parseParagraph 0 [" > x"]).2.2)) ∧
    (parseBlock 6 0 ["> a", " > b", "c"] =
      some (some (Node.quoteBlock (0 + 1)
          (0 + ((["> a", " > b", "c"]).takeWhile isQuoteLine).length + 1)
          (((["> a", " > b", "c"]).takeWhile isQuoteLine).map quoteText)),
        0 + ((["> a", " > b", "c"]).takeWhile isQuoteLine).length,
        (["> a", " > b", "c"]).dropWhile isQuoteLine)) :=
  ⟨(C10_blockquote_asymmetric 5 0 " > x" []).1 (by decide) (by decide),
   (C10_blockquote_asymmetric 5 0 "> a" [" > b", "c"]).2 (by decide)⟩

/-- `dropWhile` is `drop` of the `takeWhile` length. -/
theorem dropWhile_eq_drop_len (p : String → Bool) (l : List String) :
    l.dropWhile p = l.drop (l.takeWhile p).length := by
  induction l with
  | nil => rfl
  | cons a l ih =>
    by_cases h : p a
    · simp [List.dropWhile_cons, List.takeWhile_cons, h, ih]
    · simp [List.dropWhile_cons, List.takeWhile_cons, h]

/-- `takeWhile` never yields more elements than the list has. -/
theorem takeWhile_len_le (p : String → Bool) (l : List String) :
    (l.takeWhile p).length ≤ l.length := by
  induction l with
  | nil => simp
  | cons a l ih =>
    by_cases h : p a
    · simp [List.takeWhile_cons, h]; omega
    · simp [List.takeWhile_cons, h]

/-- The code-content loop consumes `k` lines and leaves exactly the rest. -/
theorem takeCode_spec (rs : List String) (cs : List String) (k : Nat) (r : List String)
    (h : takeCode rs = (cs, k, r)) : k ≤ rs.length ∧ r = rs.drop k := by
  induction rs generalizing cs k r with
  | nil =>
    simp [takeCode] at h
    obtain ⟨_, h2, h3⟩ := h
    subst h2; subst h3
    simp
  | cons l rest ih =>
    by_cases hf : pyStartsWith (pyStrip l) "```" = true
    · simp [takeCode, hf] at h
      obtain ⟨_, h2, h3⟩ := h
      subst h2; subst h3
      simp
    · rcases hrec : takeCode rest with ⟨cs2, k2, r2⟩
      simp [takeCode, hf, hrec] at h
      obtain ⟨_, h2, h3⟩ := h
      subst h2; subst h3
      obtain ⟨ih1, ih2⟩ := ih cs2 k2 r2 hrec
      constructor
      · simp; omega
      · simpa using ih2

/-- The blank-skipping loop consumes `k` lines and leaves exactly the rest. -/
theorem skipBlanks_spec (rs : List String) (k : Nat) (r : List String)
    (h : skipBlanks rs = (k, r)) : k ≤ rs.length ∧ r = rs.drop k := by
  induction rs generalizing k r with
  | nil =>
    simp [skipBlanks] at h
    obtain ⟨h1, h2⟩ := h
    subst h1; subst h2
    simp
  | cons l rest ih =>
    by_cases hb : pyStrip l = ""
    · rcases hrec : skipBlanks rest with ⟨k2, r2⟩
      simp [skipBlanks, hb, hrec] at h
      obtain ⟨h1, h2⟩ := h
      subst h1; subst h2
      obtain ⟨ih1, ih2⟩ := ih k2 r2 hrec
      constructor
      · simp; omega
      · simpa using ih2
    · simp [skipBlanks, hb] at h
      obtain ⟨h1, h2⟩ := h
      subst h1; subst h2
      simp

/-- The admonition body loop consumes `k` lines and leaves exactly the rest. -/
theorem takeIndented_spec (rs : List String) (cs : List String) (k : Nat) (r : List String)
    (h : takeIndented rs = (cs, k, r)) : k ≤ rs.length ∧ r = rs.drop k := by
  induction rs generalizing cs k r with
  | nil =>
    simp [takeIndented] at h
    obtain ⟨_, h2, h3⟩ := h
    subst h2; subst h3
    simp
  | cons l rest ih =>
    by_cases hi : (pyStartsWith l "    " || pyStartsWith l "\t") = true
    · rcases hrec : takeIndented rest with ⟨cs2, k2, r2⟩
      simp [takeIndented, hi, hrec] at h
      obtain ⟨_, h2, h3⟩ := h
      subst h2; subst h3
      obtain ⟨ih1, ih2⟩ := ih cs2 k2 r2 hrec
      constructor
      · simp; omega
      · simpa using ih2
    · simp [takeIndented, hi] at h
      obtain ⟨_, h2, h3⟩ := h
      subst h2; subst h3
      simp

/-- The tab-content loop consumes `k` lines and leaves exactly the rest. -/
theorem takeTabContent_spec (rs : List String) (cs : List String) (k : Nat) (r : List String)
    (h : takeTabContent rs = (cs, k, r)) : k ≤ rs.length ∧ r = rs.drop k := by
  induction rs generalizing cs k r with
  | nil =>
    simp [takeTabContent] at h
    obtain ⟨_, h2, h3⟩ := h
    subst h2; subst h3
    simp
  | cons l rest ih =>
    rcases hm : tabHeaderMatch l with _ | title
    · by_cases hb : pyStrip l = ""
      · simp [takeTabContent, hm, hb] at h
        obtain ⟨_, h2, h3⟩ := h
        subst h2; subst h3
        simp
      · by_cases hi : (pyStartsWith l "    " || pyStartsWith l "\t") = true
        · rcases hrec : takeTabContent rest with ⟨cs2, k2, r2⟩
          simp [takeTabContent, hm, hb, hi, hrec] at h
          obtain ⟨_, h2, h3⟩ := h
          subst h2; subst h3
          obtain ⟨ih1, ih2⟩ := ih cs2 k2 r2 hrec
          constructor
          · simp; omega
          · simpa using ih2
        · simp [takeTabContent, hm, hb, hi] at h
          obtain ⟨_, h2, h3⟩ := h
          subst h2; subst h3
          simp
    · simp [takeTabContent, hm] at h
      obtain ⟨_, h2, h3⟩ := h
      subst h2; subst h3
      simp

/-- A span chain in `[lo, hi)` is also a chain in any wider `[lo2, hi)`. -/
theorem spanChain_weaken (lo2 lo hi : Nat) (bs : List Node) (hlo : lo2 ≤ lo)
    (h : spanChain lo hi bs = true) : spanChain lo2 hi bs = true := by
  cases bs with
  | nil => rfl
  | cons b rest =>
    simp only [spanChain, Bool.and_eq_true, decide_eq_true_eq] at h ⊢
    exact ⟨by omega, h.2⟩

/-- `_collect_list_items` consumes `k` lines; the produced items occupy
consecutive one-line spans chained inside `[c+1, c2+1)`, each a `ListItem`
wrapping one `Paragraph` of the same span. -/
theorem collectItems_spec (isM : String → Bool) (sub : String → String)
    (c : Nat) (rs : List String) (items : List Node) (c2 : Nat) (r2 : List String)
    (h : collectItems isM sub c rs = (items, c2, r2)) :
    ∃ k, c2 = c + k ∧ k ≤ rs.length ∧ r2 = rs.drop k ∧
      spanChain (c + 1) (c2 + 1) items = true ∧ sameLevelOkList items = true := by
  induction rs generalizing c items c2 r2 with
  | nil =>
    simp [collectItems] at h
    obtain ⟨h1, h2, h3⟩ := h
    subst h1; subst h2; subst h3
    exact ⟨0, by simp [spanChain, sameLevelOkList]⟩
  | cons l rest ih =>
    by_cases hm : isM l = true
    · rcases hrec : collectItems isM sub (c + 1) rest with ⟨items2, c22, r22⟩
      simp [collectItems, hm, hrec] at h
      obtain ⟨h1, h2, h3⟩ := h
      subst h1; subst h2; subst h3
      obtain ⟨k, hk1, hk2, hk3, hk4, hk5⟩ := ih (c + 1) items2 c22 r22 hrec
      refine ⟨k + 1, ?_, ?_, ?_, ?_, ?_⟩
      · omega
      · simp only [List.length_cons]; omega
      · simpa using hk3
      · simp only [spanChain, nodeStart, nodeLimit, Bool.and_eq_true, decide_eq_true_eq]
        exact ⟨by omega, hk4⟩
      · simp only [sameLevelOkList, Bool.and_eq_true]
        refine ⟨?_, hk5⟩
        simp [sameLevelOk, spanChain, nodeStart, nodeLimit, sameLevelOkList]
    · simp [collectItems, hm] at h
      obtain ⟨h1, h2, h3⟩ := h
      subst h1; subst h2; subst h3
      exact ⟨0, by simp [spanChain, sameLevelOkList]⟩

/-- When the first line matches the marker, the list loop consumes it. -/
theorem collectItems_progress (isM : String → Bool) (sub : String → String)
    (c : Nat) (l : String) (rest : List String) (items : List Node) (c2 : Nat)
    (r2 : List String) (hm : isM l = true)
    (h : collectItems isM sub c (l :: rest) = (items, c2, r2)) : c + 1 ≤ c2 := by
  rcases hrec : collectItems isM sub (c + 1) rest with ⟨items2, c22, r22⟩
  simp [collectItems, hm, hrec] at h
  obtain ⟨k, hk1, _⟩ := collectItems_spec isM sub (c + 1) rest items2 c22 r22 hrec
  omega

/-- A line starting with `>` unindented also starts with `>` after lstrip. -/
theorem isQuoteLine_of_startsWith (l : String) (h : pyStartsWith l ">" = true) :
    isQuoteLine l = true := by
  obtain ⟨t, hd⟩ : ∃ t, l.data = '>' :: t := by
    rcases hdd : l.data with _ | ⟨d, t⟩
    · simp [pyStartsWith, hdd, List.isPrefixOf] at h
    · simp only [pyStartsWith, hdd, List.isPrefixOf, Bool.and_eq_true, beq_iff_eq] at h
      exact ⟨t, congrArg (fun x => x :: t) h.1.symm⟩
  simp [isQuoteLine, pyLstrip, hd, List.dropWhile_cons, isWS, pyStartsWith,
    List.isPrefixOf]

/-- The tab loop consumes `k` lines; the produced `Tab` nodes form a span
chain inside `[c+1, c2+1)`, and the loop either consumes at least one line
or consumed nothing because the first line fails `TAB_HEADER_RE`. -/
theorem parseTabs_spec (fuel : Nat) :
    ∀ (c : Nat) (rs : List String) (tabs : List Node) (c2 : Nat) (r2 : List String),
      parseTabs fuel c rs = some (tabs, c2, r2) →
      ∃ k, c2 = c + k ∧ k ≤ rs.length ∧ r2 = rs.drop k ∧
        spanChain (c + 1) (c2 + 1) tabs = true ∧ sameLevelOkList tabs = true ∧
        (1 ≤ k ∨ (k = 0 ∧ tabs = [] ∧ tabHeaderMatch (rs.headD "") = none ∧ r2 = rs)) := by
  induction fuel with
  | zero => intro c rs tabs c2 r2 h; exact absurd h (by simp [parseTabs])
  | succ f ih =>
    intro c rs tabs c2 r2 h
    rcases rs with _ | ⟨l, rest1⟩
    · simp [parseTabs] at h
      obtain ⟨h1, h2, h3⟩ := h
      subst h1; subst h2; subst h3
      exact ⟨0, rfl, by simp, rfl, rfl, rfl, Or.inr ⟨rfl, rfl, rfl, rfl⟩⟩
    · rcases hm : tabHeaderMatch l with _ | title
      · simp [parseTabs, hm] at h
        obtain ⟨h1, h2, h3⟩ := h
        subst h1; subst h2; subst h3
        exact ⟨0, rfl, by simp, rfl, rfl, rfl, Or.inr ⟨rfl, rfl, by simp [List.headD, hm], rfl⟩⟩
      · rcases hsb : skipBlanks rest1 with ⟨k1, rest2⟩
        rcases htc : takeTabContent rest2 with ⟨content, k2, rest3⟩
        rcases hpi : parse f (splitlinesNl (joinNl content)) with _ | inner
        · exact absurd h (by simp [parseTabs, hm, hsb, htc, hpi])
        · rcases hpt : parseTabs f (c + 1 + k1 + k2) rest3 with _ | ⟨tabs2, c3, rest4⟩
          · exact absurd h (by simp [parseTabs, hm, hsb, htc, hpi, hpt])
          · simp [parseTabs, hm, hsb, htc, hpi, hpt] at h
            obtain ⟨h1, h2, h3⟩ := h
            subst h1; subst h2; subst h3
            obtain ⟨k1le, hr2⟩ := skipBlanks_spec rest1 k1 rest2 hsb
            obtain ⟨k2le, hr3⟩ := takeTabContent_spec rest2 content k2 rest3 htc
            obtain ⟨k3, hc3, k3le, hr4, chain2, ok2, _⟩ :=
              ih (c + 1 + k1 + k2) rest3 tabs2 c3 rest4 hpt
            have hlen2 : rest2.length = rest1.length - k1 := by rw [hr2]; simp
            have hlen3 : rest3.length = rest2.length - k2 := by rw [hr3]; simp
            refine ⟨1 + k1 + k2 + k3, by omega, by simp; omega, ?_, ?_, ?_, Or.inl (by omega)⟩
            · rw [hr4, hr3, hr2]
              have hsucc : 1 + k1 + k2 + k3 = (k1 + k2 + k3) + 1 := by omega
              rw [hsucc, List.drop_succ_cons, List.drop_drop, List.drop_drop]
              congr 1
              omega
            · simp only [spanChain, nodeStart, nodeLimit, Bool.and_eq_true, decide_eq_true_eq]
              constructor
              · omega
              · exact chain2
            · simp only [sameLevelOkList, sameLevelOk, Bool.and_eq_true]
              exact ⟨trivial, ok2⟩

/-- The dispatcher invariant: a blank line is consumed producing no node;
otherwise the produced node starts at line `c+1`, its `limit_line` is one
past the new cursor, it satisfies the per-pass span invariant, and the
dispatcher either consumed at least one line or reached one of the two
frozen states (tab header mismatch, empty paragraph) that repeat forever. -/
theorem parseBlock_spec (fuel c : Nat) (l : String) (rest1 : List String)
    (optn : Option Node) (c2 : Nat) (r2 : List String)
    (h : parseBlock fuel c (l :: rest1) = some (optn, c2, r2)) :
    (optn = none ∧ c2 = c + 1 ∧ r2 = rest1) ∨
    (∃ n k, optn = some n ∧ c2 = c + k ∧ r2 = (l :: rest1).drop k ∧
      k ≤ (l :: rest1).length ∧ nodeStart n = c + 1 ∧ nodeLimit n = c + k + 1 ∧
      sameLevelOk n = true ∧
      (1 ≤ k ∨ ∀ f2 c3, parseBlock f2 c3 (l :: rest1) = none ∨
        ∃ n2, parseBlock f2 c3 (l :: rest1) = some (some n2, c3, l :: rest1))) := by
  rcases fuel with _ | f
  · exact absurd h (by simp [parseBlock])
  by_cases hb : l = ""
  · left
    simp [parseBlock, hb, List.headD] at h
    exact ⟨h.1.symm, h.2.1.symm, h.2.2.symm⟩
  by_cases hcf : pyStartsWith l "```" = true
  · right
    rcases htck : takeCode rest1 with ⟨content, k, r⟩
    simp [parseBlock, parseCodeBlock, List.headD, hb, hcf, htck] at h
    obtain ⟨hn, hc2, hr2⟩ := h
    obtain ⟨kle, hr⟩ := takeCode_spec rest1 content k r htck
    refine ⟨_, 1 + k, hn.symm, by omega, ?_, by simp; omega, rfl, ?_, by simp [sameLevelOk], Or.inl (by omega)⟩
    · rw [show 1 + k = k + 1 by omega, List.drop_succ_cons]
      exact hr2.symm.trans hr
    · simp [nodeLimit]; omega
  by_cases hh : headingPrefixMatch l = true
  · right
    rcases hm : headingLineMatch (pyStrip l) with _ | ⟨lvl, text⟩
    · simp [parseBlock, parseHeading, List.headD, hb, hcf, hh, hm] at h
      obtain ⟨hn, hc2, hr2⟩ := h
      exact ⟨_, 1, hn.symm, by omega, by simpa using hr2.symm, by simp,
        rfl, by simp [nodeLimit], by simp [sameLevelOk], Or.inl (by omega)⟩
    · simp [parseBlock, parseHeading, List.headD, hb, hcf, hh, hm] at h
      obtain ⟨hn, hc2, hr2⟩ := h
      exact ⟨_, 1, hn.symm, by omega, by simpa using hr2.symm, by simp,
        rfl, by simp [nodeLimit], by simp [sameLevelOk], Or.inl (by omega)⟩
  by_cases hu : unorderedMatch l = true
  · right
    rcases hci : collectItems unorderedMatch unorderedSub c (l :: rest1) with ⟨items, cI, rI⟩
    simp [parseBlock, parseUnorderedList, List.headD, hb, hcf, hh, hu, hci] at h
    obtain ⟨hn, hc2, hr2⟩ := h
    obtain ⟨k, hk1, hk2, hk3, hk4, hk5⟩ := collectItems_spec _ _ c (l :: rest1) items cI rI hci
    have hprog := collectItems_progress _ _ c l rest1 items cI rI hu hci
    refine ⟨_, k, hn.symm, by omega, hr2.symm.trans hk3, hk2, rfl, ?_, ?_, Or.inl (by omega)⟩
    · simp [nodeLimit]; omega
    · simp only [sameLevelOk, Bool.and_eq_true]
      exact ⟨hk4, hk5⟩
  by_cases ho : orderedMatch l = true
  · right
    rcases hci : collectItems orderedMatch orderedSub c (l :: rest1) with ⟨items, cI, rI⟩
    simp [parseBlock, parseOrderedList, List.headD, hb, hcf, hh, hu, ho, hci] at h
    obtain ⟨hn, hc2, hr2⟩ := h
    obtain ⟨k, hk1, hk2, hk3, hk4, hk5⟩ := collectItems_spec _ _ c (l :: rest1) items cI rI hci
    have hprog := collectItems_progress _ _ c l rest1 items cI rI ho hci
    refine ⟨_, k, hn.symm, by omega, hr2.symm.trans hk3, hk2, rfl, ?_, ?_, Or.inl (by omega)⟩
    · simp [nodeLimit]; omega
    · simp only [sameLevelOk, Bool.and_eq_true]
      exact ⟨hk4, hk5⟩
  by_cases hq : pyStartsWith l ">" = true
  · right
    rcases htq : takeQuote (l :: rest1) with ⟨ls, k, r⟩
    simp [parseBlock, parseQuoteBlock, List.headD, hb, hcf, hh, hu, ho, hq, htq] at h
    obtain ⟨hn, hc2, hr2⟩ := h
    have heq := (takeQuote_eq (l :: rest1)).symm.trans htq
    obtain ⟨hls, hk, hr⟩ : _ ∧ ((l :: rest1).takeWhile isQuoteLine).length = k ∧
        (l :: rest1).dropWhile isQuoteLine = r := by
      simpa [Prod.ext_iff] using heq
    have hkpos : 1 ≤ k := by
      rw [← hk]
      simp [List.takeWhile_cons, isQuoteLine_of_startsWith l hq]
    refine ⟨_, k, hn.symm, by omega, ?_, ?_, rfl, by simp [nodeLimit], by simp [sameLevelOk], Or.inl hkpos⟩
    · rw [hr2.symm.trans hr.symm, dropWhile_eq_drop_len, hk]
    · rw [← hk]
      exact takeWhile_len_le _ _
  by_cases ha : (pyStartsWith l "!!!" || pyStartsWith l "???") = true
  · right
    rcases hsb : skipBlanks rest1 with ⟨k1, rest2⟩
    rcases hti : takeIndented rest2 with ⟨body, k2, rest3⟩
    rcases hpi : parse f (splitlinesNl (joinNl body)) with _ | inner
    · exact absurd h (by simp [parseBlock, List.headD, hb, hcf, hh, hu, ho, hq, ha, hsb, hti, hpi])
    simp [parseBlock, List.headD, hb, hcf, hh, hu, ho, hq, ha, hsb, hti, hpi] at h
    obtain ⟨hn, hc2, hr2⟩ := h
    obtain ⟨k1le, hr2s⟩ := skipBlanks_spec rest1 k1 rest2 hsb
    obtain ⟨k2le, hr3s⟩ := takeIndented_spec rest2 body k2 rest3 hti
    have hlen2 : rest2.length = rest1.length - k1 := by rw [hr2s]; simp
    refine ⟨_, 1 + k1 + k2, hn.symm, by omega, ?_, by simp; omega, rfl, ?_, by simp [sameLevelOk], Or.inl (by omega)⟩
    · rw [hr2.symm.trans hr3s, hr2s, List.drop_drop,
        show 1 + k1 + k2 = (k1 + k2) + 1 from by omega, List.drop_succ_cons]
    · simp [nodeLimit]; omega
  by_cases hte : pyStartsWith l "===" = true
  · right
    rcases hpt : parseTabs f c (l :: rest1) with _ | ⟨tabs, cT, rT⟩
    · exact absurd h (by simp [parseBlock, List.headD, hb, hcf, hh, hu, ho, hq, ha, hte, hpt])
    simp [parseBlock, List.headD, hb, hcf, hh, hu, ho, hq, ha, hte, hpt] at h
    obtain ⟨hn, hc2, hr2⟩ := h
    obtain ⟨k, hk1, hk2, hk3, hk4, hk5, hk6⟩ := parseTabs_spec f c (l :: rest1) tabs cT rT hpt
    have ha1 : pyStartsWith l "!!!" = false := by
      rcases hx : pyStartsWith l "!!!" with _ | _
      · rfl
      · exact absurd (by simp [hx]) ha
    have ha2 : pyStartsWith l "???" = false := by
      rcases hx : pyStartsWith l "???" with _ | _
      · rfl
      · exact absurd (by simp [hx]) ha
    refine ⟨_, k, hn.symm, by omega, hr2.symm.trans hk3, hk2, rfl, ?_, ?_, ?_⟩
    · simp [nodeLimit]; omega
    · simp only [sameLevelOk, Bool.and_eq_true]
      exact ⟨hk4, hk5⟩
    · rcases hk6 with hk6 | ⟨_, _, htm, _⟩
      · exact Or.inl hk6
      · refine Or.inr (parseBlock_frozen_tab_cases l rest1 ?_ ?_ ?_ ?_ ?_ ?_ ?_ ?_ hte ?_)
        · exact hb
        · simpa using hcf
        · simpa using hh
        · simpa using hu
        · simpa using ho
        · simpa using hq
        · exact ha1
        · exact ha2
        · simpa [List.headD] using htm
  -- paragraph branch
  right
  rcases htp : takePara (l :: rest1) with ⟨ls, k, r⟩
  simp [parseBlock, parseParagraph, List.headD, hb, hcf, hh, hu, ho, hq, ha, hte, htp] at h
  obtain ⟨hn, hc2, hr2⟩ := h
  have heq := (takePara_eq (l :: rest1)).symm.trans htp
  obtain ⟨hls, hk, hr⟩ : _ ∧ ((l :: rest1).takeWhile paraLine).length = k ∧
      (l :: rest1).dropWhile paraLine = r := by
    simpa [Prod.ext_iff] using heq
  refine ⟨_, k, hn.symm, by omega, ?_, ?_, rfl, by simp [nodeLimit], by simp [sameLevelOk], ?_⟩
  · rw [hr2.symm.trans hr.symm, dropWhile_eq_drop_len, hk]
  · rw [← hk]
    exact takeWhile_len_le _ _
  · rcases Nat.eq_zero_or_pos k with hk0 | hk0
    · have hple : paraLine l = false := by
        by_contra hx
        rw [Bool.not_eq_false] at hx
        rw [hk0] at hk
        simp [List.takeWhile_cons, hx] at hk
      have hple2 : ¬pyStrip l = "" → paraBreak l = true := by
        simpa [paraLine] using hple
      have hbk : (decide (pyStrip l = "") || paraBreak l) = true := by
        by_cases he : pyStrip l = ""
        · simp [he]
        · simp [he, hple2 he]
      have hafalse : (pyStartsWith l "!!!" || pyStartsWith l "???") = false := by
        simpa using ha
      simp only [Bool.or_eq_false_iff] at hafalse
      refine Or.inr (parseBlock_frozen_para_cases l rest1 hb (by simpa using hcf)
        (by simpa using hh) (by simpa using hu) (by simpa using ho) (by simpa using hq)
        hafalse.1 hafalse.2 (by simpa using hte) hbk)
    · exact Or.inl hk0


/-- The `parse()` loop invariant: any block list a successful run returns
forms a span chain inside `[c+1, c+total+1)` with per-pass-valid nodes. -/
theorem parseLoop_spec (fuel : Nat) :
    ∀ (c : Nat) (rs : List String) (bs : List Node),
      parseLoop fuel c rs = some bs →
      spanChain (c + 1) (c + rs.length + 1) bs = true ∧ sameLevelOkList bs = true := by
  induction fuel with
  | zero => intro c rs bs h; exact absurd h (by simp [parseLoop])
  | succ f ih =>
    intro c rs bs h
    rcases rs with _ | ⟨l, rest1⟩
    · simp [parseLoop] at h
      subst h
      exact ⟨rfl, rfl⟩
    · rcases hpb : parseBlock f c (l :: rest1) with _ | ⟨optn, c2, r2⟩
      · simp only [parseLoop, hpb] at h
        exact absurd h (by simp)
      · rcases optn with _ | n
        · simp only [parseLoop, hpb] at h
          rcases parseBlock_spec f c l rest1 none c2 r2 hpb with ⟨_, hc2, hr2⟩ | ⟨n, k, hsome, _⟩
          · rw [hc2, hr2] at h
            obtain ⟨chain2, ok2⟩ := ih (c + 1) rest1 bs h
            refine ⟨?_, ok2⟩
            have hw := spanChain_weaken (c + 1) (c + 1 + 1) (c + 1 + rest1.length + 1) bs
              (by omega) chain2
            rw [show c + (l :: rest1).length + 1 = c + 1 + rest1.length + 1 from by
              simp only [List.length_cons]; omega]
            exact hw
          · exact absurd hsome.symm (by simp)
        · simp only [parseLoop, hpb, Option.map_eq_some'] at h
          obtain ⟨bs2, hloop, hbs⟩ := h
          subst hbs
          rcases parseBlock_spec f c l rest1 (some n) c2 r2 hpb with ⟨hfalse, _, _⟩ | hspec
          · exact absurd hfalse (by simp)
          obtain ⟨n2, k, hsome, hc2, hr2, hkle, hstart, hlimit, hok, hprog⟩ := hspec
          have hn2 : n = n2 := by simpa using hsome
          rcases hprog with hk1 | hfrozen
          · obtain ⟨chain2, ok2⟩ := ih c2 r2 bs2 hloop
            have hdlen : r2.length = (l :: rest1).length - k := by
              rw [hr2]; exact List.length_drop k (l :: rest1)
            constructor
            · simp only [spanChain, Bool.and_eq_true, decide_eq_true_eq]
              rw [← hn2] at hstart hlimit
              constructor
              · refine ⟨⟨?_, ?_⟩, ?_⟩
                · omega
                · omega
                · omega
              · rw [hlimit]
                rw [hc2] at chain2
                have hhi : c + k + r2.length + 1 = c + (l :: rest1).length + 1 := by omega
                rw [← hhi]
                exact chain2
            · simp only [sameLevelOkList, Bool.and_eq_true]
              rw [← hn2] at hok
              exact ⟨hok, ok2⟩
          · obtain hpb2 := hfrozen f c
            rcases hpb2 with hnone | ⟨n3, hsome2⟩
            · exact absurd (hpb.symm.trans hnone) (by simp)
            · have heq : (some n, c2, r2) = (some n3, c, l :: rest1) :=
                Option.some.inj (hpb.symm.trans hsome2)
              have hcc : c2 = c := congrArg (fun p => p.2.1) heq
              have hrr : r2 = l :: rest1 := congrArg (fun p => p.2.2) heq
              rw [hcc, hrr] at hloop
              rw [parseLoop_frozen l rest1 hfrozen f c] at hloop
              exact absurd hloop (by simp)

/-- C2, amended: within each single parser pass, every produced node's span
is contained in its parent's span, sibling spans are non-overlapping and
strictly increasing, and spans are non-empty — document blocks inside the
`Document` span, list items inside their list (each wrapping its paragraph),
tabs inside their `TabBlock`.  Blocks nested inside `Admonition` and `Tab`
nodes come from a fresh parser over the de-indented content and carry line
numbers relative to that sub-document, so they are exempt (see the
counterexample). -/
theorem C2_span_invariant_amended (fuel : Nat) (lines : List String) (d : Document)
    (h : parse fuel lines = some d) : docSameLevelOk d = true := by
  rcases fuel with _ | f
  · exact absurd h (by simp [parse])
  · simp only [parse, Option.map_eq_some'] at h
    obtain ⟨bs, hloop, hd⟩ := h
    obtain ⟨chain, ok⟩ := parseLoop_spec f 0 lines bs hloop
    rw [← hd]
    simp only [docSameLevelOk, Bool.and_eq_true]
    constructor
    · simpa using chain
    · exact ok

/-- C2, witness: the amended invariant at a concrete two-block parse. -/
theorem C2_span_invariant_witness :
    docSameLevelOk ⟨1, 3, [Node.heading 1 2 1 "H", Node.paragraph 2 3 "t"]⟩ = true :=
  C2_span_invariant_amended 20 ["# H", "t"]
    ⟨1, 3, [Node.heading 1 2 1 "H", Node.paragraph 2 3 "t"]⟩ rfl

/-- C2, counterexample: the claimed tree-wide containment fails — in
`"x\n??? note \"T\"\n    body"` the admonition spans `[2,4)` but its nested
paragraph, renumbered by the fresh inner parser, spans `[1,2)`, so
`parent.start_line <= child.start_line` is violated and `docClaimOk` is
`false` on the parsed document. -/
theorem C2_span_containment_counterexample :
    (parseText 100 "x\n??? note \"T\"\n    body").map docClaimOk = some false ∧
    parseText 100 "x\n??? note \"T\"\n    body" =
      some ⟨1, 4, [Node.paragraph 1 2 "x",
        Node.admonition 2 4 "???" "note \"T" [Node.paragraph 1 2 "body"] false]⟩ :=
  ⟨rfl, rfl⟩
